import Mathlib

/-!
Verification of the constraint-construction core of `examples/computing.py`
from the smartalloc repository.

The Python file builds a constraint system for a capacity-constrained
task-placement problem out of combinators provided by the `smartalloc`
library (`sa.Bool`, `sa.Real`, `sa.Int`, `sa.If`, `sa.sum`, `sa.all`,
`sa.any`, comparisons).  The library itself is an external collaborator;
per the documented interface the combinators build opaque constraint
objects, which we embed as syntax trees (`Expr`, `Constraint`) together
with an evaluation semantics over variable assignments (`Assignment`,
`evalExpr`, `evalC`).

Variables are identified structurally:
  - `Expr.cpuVar cls i` / `Expr.memVar cls i` are the class-level shared
    slot-cost variables `Blade.cpu[i]` / `Blade.mem[i]` of the pool class
    created by the `cls`-th call of `define_blade` (each call of
    `define_blade` allocates fresh class-level variable lists, so the class
    tag is part of the variable identity);
  - a running variable is identified by the pair (blade instance id `bid`,
    slot `i`), since each `Blade.__init__` allocates a fresh `running` list.

Real-valued variables/literals are modelled by `ℚ`, integer ones by `ℤ`
(cast into `ℚ` at evaluation).  Fallible Python code (list indexing, which
raises `IndexError` out of bounds) is modelled in `Except Err`.
-/

namespace Smartalloc

/-- Errors a constraint-building call can raise.  `indexError` models
Python's built-in `IndexError` from out-of-bounds list indexing.
`configurationError` is modelled from the spec: the spec's error taxonomy
names a `ConfigurationError` for invalid pool sizes and empty candidate
sets; no such class exists anywhere in the source. -/
inductive Err where
  | indexError
  | configurationError
  deriving DecidableEq, Repr

/-- Numeric expressions built by the Python code: rational literals, the
shared slot-cost variables `Blade.cpu[i]` / `Blade.mem[i]` (tagged with the
pool class `cls` that allocated them), the conditional-select
`sa.If(running[i], e, e)` on blade `bid`, and the aggregate `sa.sum`. -/
inductive Expr where
  | lit : ℚ → Expr
  | cpuVar : ℕ → ℕ → Expr
  | memVar : ℕ → ℕ → Expr
  | iteRun : ℕ → ℕ → Expr → Expr → Expr
  | sum : List Expr → Expr

/-- Constraints built by the Python code: `<=`, `>=`, `==` between numeric
expressions, equality between a running variable `running[i]` of blade
`bid` and a boolean literal, and the n-ary `sa.all` / `sa.any`. -/
inductive Constraint where
  | le : Expr → Expr → Constraint
  | ge : Expr → Expr → Constraint
  | eq : Expr → Expr → Constraint
  | runEq : ℕ → ℕ → Bool → Constraint
  | all : List Constraint → Constraint
  | any : List Constraint → Constraint

/-- An assignment gives a value to every decision variable: a boolean for
each running variable (blade id, slot), a rational for each class-level
CPU-cost variable (class, slot) and an integer for each class-level
memory-cost variable (class, slot). -/
structure Assignment where
  runningVal : ℕ → ℕ → Bool
  cpuVal : ℕ → ℕ → ℚ
  memVal : ℕ → ℕ → ℤ

/-- Value of a numeric expression under an assignment. -/
def evalExpr (a : Assignment) : Expr → ℚ
  | .lit q => q
  | .cpuVar c i => a.cpuVal c i
  | .memVar c i => (a.memVal c i : ℚ)
  | .iteRun b i t e => if a.runningVal b i then evalExpr a t else evalExpr a e
  | .sum [] => 0
  | .sum (e :: es) => evalExpr a e + evalExpr a (.sum es)

/-- Truth value of a constraint under an assignment. -/
def evalC (a : Assignment) : Constraint → Bool
  | .le e₁ e₂ => decide (evalExpr a e₁ ≤ evalExpr a e₂)
  | .ge e₁ e₂ => decide (evalExpr a e₂ ≤ evalExpr a e₁)
  | .eq e₁ e₂ => decide (evalExpr a e₁ = evalExpr a e₂)
  | .runEq b i v => a.runningVal b i == v
  | .all [] => true
  | .all (c :: cs) => evalC a c && evalC a (.all cs)
  | .any [] => false
  | .any (c :: cs) => evalC a c || evalC a (.any cs)

/-- Updating the value of one class-level CPU-cost variable, leaving every
other variable alone (used to express that a variable is unconstrained). -/
def Assignment.setCpu (a : Assignment) (c i : ℕ) (v : ℚ) : Assignment :=
  { a with cpuVal := fun c' i' => if c' = c ∧ i' = i then v else a.cpuVal c' i' }

/-- Updating the value of one class-level memory-cost variable, leaving
every other variable alone. -/
def Assignment.setMem (a : Assignment) (c i : ℕ) (v : ℤ) : Assignment :=
  { a with memVal := fun c' i' => if c' = c ∧ i' = i then v else a.memVal c' i' }

/-- A pool class produced by `define_blade(num_tasks)`.  `cls` tags the
class-level variable lists allocated by this particular call; `numTasks`
is the `num_tasks` argument (an arbitrary Python int, so `ℤ`). -/
structure BladeClass where
  cls : ℕ
  numTasks : ℤ
  deriving DecidableEq, Repr

/-- Number of slot variables actually allocated: Python's
`range(num_tasks)` is empty for `num_tasks <= 0`. -/
def BladeClass.slots (K : BladeClass) : ℕ := K.numTasks.toNat

/-- The class attribute `cpu = [sa.Real() for _ in range(num_tasks)]`. -/
def BladeClass.cpu (K : BladeClass) : List Expr :=
  (List.range K.slots).map (fun i => .cpuVar K.cls i)

/-- The class attribute `mem = [sa.Int() for _ in range(num_tasks)]`. -/
def BladeClass.mem (K : BladeClass) : List Expr :=
  (List.range K.slots).map (fun i => .memVar K.cls i)

/-- Translation of `define_blade(num_tasks)`.  The Python function body
performs no validation and cannot raise on any int input: it always
returns a freshly created class.  The result type is `Except Err` so that
the spec's demand of a construction-time configuration error is statable;
the faithful translation is unconditionally `Except.ok`. -/
def define_blade (num_tasks : ℤ) (cls : ℕ) : Except Err BladeClass :=
  .ok ⟨cls, num_tasks⟩

/-- A blade instance: its pool class, the instance tag `bid` for its
freshly allocated `running` list, and the constructor arguments
`num_cpu` (a float, modelled by `ℚ`) and `total_mem` (an int). -/
structure Blade where
  klass : BladeClass
  bid : ℕ
  num_cpu : ℚ
  total_mem : ℤ

/-- Translation of `Blade._cond(i, rsrc)`:
`sa.If(self.running[i], rsrc[i], 0)`.  List indexing is via `getD`; every
caller passes `i < rsrc.length`, so the default is never consulted. -/
def Blade.cond (b : Blade) (i : ℕ) (rsrc : List Expr) : Expr :=
  .iteRun b.bid i (rsrc.getD i (.lit 0)) (.lit 0)

/-- Translation of `Blade._cond_cpu(i)`. -/
def Blade.cond_cpu (b : Blade) (i : ℕ) : Expr := b.cond i b.klass.cpu

/-- Translation of `Blade._cond_mem(i)`. -/
def Blade.cond_mem (b : Blade) (i : ℕ) : Expr := b.cond i b.klass.mem

/-- Translation of `Blade.get_constraints`: the conjunction of the
conditional CPU sum bounded by `num_cpu` and the conditional memory sum
bounded by `total_mem`, each sum ranging over `range(self.num_tasks)`. -/
def Blade.get_constraints (b : Blade) : Constraint :=
  .all
    [ .le (.sum ((List.range b.klass.slots).map b.cond_cpu)) (.lit b.num_cpu),
      .le (.sum ((List.range b.klass.slots).map b.cond_mem)) (.lit (b.total_mem : ℚ)) ]

/-- Translation of the classmethod `Blade.get_global_constraints`:
`sa.all(*[cls.cpu[i] >= 0 ...], *[cls.mem[i] >= 0 ...])`.  It depends on
the class only, not on any instance. -/
def BladeClass.get_global_constraints (K : BladeClass) : Constraint :=
  .all
    ((List.range K.slots).map (fun i => .ge (K.cpu.getD i (.lit 0)) (.lit 0)) ++
     (List.range K.slots).map (fun i => .ge (K.mem.getD i (.lit 0)) (.lit 0)))

/-- A task as constructed by `Task(identifier, cpu_cost, mem_cost)`. -/
structure Task where
  id : ℕ
  cpu : ℚ
  mem : ℤ

/-- Translation of `Task._assign_blade(blade)`:
`sa.all(blade.running[self.id] == True)`.  Indexing `blade.running`
(which has `blade.klass.slots` entries) raises `IndexError` when
`self.id` is out of bounds. -/
def Task.assign_blade (t : Task) (b : Blade) : Except Err Constraint :=
  if t.id < b.klass.slots then
    .ok (.all [.runEq b.bid t.id true])
  else
    .error .indexError

/-- Evaluation of the list comprehension
`[self._assign_blade(blade) for blade in blades]`, left to right, stopping
at the first raised error. -/
def Task.assign_conds (t : Task) : List Blade → Except Err (List Constraint)
  | [] => .ok []
  | b :: bs => do
    let c ← t.assign_blade b
    let cs ← t.assign_conds bs
    return c :: cs

/-- Translation of `Task._assign_blades(blades)`:
`sa.any(*[self._assign_blade(blade) for blade in blades])`. -/
def Task.assign_blades (t : Task) (blades : List Blade) : Except Err Constraint := do
  let cs ← t.assign_conds blades
  return .any cs

/-- Translation of `Task.get_constraints(blades)`.  `type(blades[0])`
raises `IndexError` on an empty list; `Blade.cpu[self.id]` and
`Blade.mem[self.id]` (lists of length `slots`) raise `IndexError` when
`self.id` is out of bounds; then the placement disjunction is built. -/
def Task.get_constraints (t : Task) (blades : List Blade) : Except Err Constraint :=
  match blades with
  | [] => .error .indexError
  | b₀ :: _ =>
    if t.id < b₀.klass.slots then do
      let placed ← t.assign_blades blades
      return .all
        [ .eq (b₀.klass.cpu.getD t.id (.lit 0)) (.lit t.cpu),
          .eq (b₀.klass.mem.getD t.id (.lit 0)) (.lit (t.mem : ℚ)),
          placed ]
    else
      .error .indexError

/-- Translation of the `resource_constraints` list built in `main`:
the class-level global constraint followed by each blade instance's
constraint, in order. -/
def resource_constraints (K : BladeClass) (blades : List Blade) : List Constraint :=
  K.get_global_constraints :: blades.map Blade.get_constraints

/-- Translation of one entry of `worked_per_blade` in `main`:
`[i for i in range(num_tasks) if alloc[blade.running[i]]]`. -/
def blade_worked (a : Assignment) (num_tasks : ℕ) (b : Blade) : List ℕ :=
  (List.range num_tasks).filter (fun i => a.runningVal b.bid i)

/-- Translation of the full `worked_per_blade` list comprehension. -/
def worked_per_blade (a : Assignment) (num_tasks : ℕ) (blades : List Blade) :
    List (List ℕ) :=
  blades.map (blade_worked a num_tasks)

/-- State-threaded form of `Blade.get_constraints`.  The Python method
body is a single `return` expression reading `self.running`, the class
attributes `cpu`/`mem`/`num_tasks` and the instance attributes
`num_cpu`/`total_mem`; it contains no assignment statement, so the
threaded instance state comes back unchanged. -/
def Blade.get_constraintsS (b : Blade) : Blade × Constraint :=
  (b, b.get_constraints)

/-- State-threaded form of the classmethod `Blade.get_global_constraints`;
its body only reads `cls.cpu`, `cls.mem` and `cls.num_tasks`. -/
def BladeClass.get_global_constraintsS (K : BladeClass) : BladeClass × Constraint :=
  (K, K.get_global_constraints)

/-- State-threaded form of `Task.get_constraints`; its body (and the
helpers `_assign_blades` / `_assign_blade` it calls) only reads
`self.id`, `self.cpu`, `self.mem` and the blades' attributes. -/
def Task.get_constraintsS (t : Task) (blades : List Blade) :
    (Task × List Blade) × Except Err Constraint :=
  ((t, blades), t.get_constraints blades)

/-- Sample pool class, as created by `define_blade(1)`. -/
def Kc : BladeClass := ⟨0, 1⟩

/-- Sample second pool class, as created by a second call `define_blade(1)`
(fresh class-level variables, hence tag 1). -/
def Kd : BladeClass := ⟨1, 1⟩

/-- Sample blade instance `Blade(8, 128)` of class `Kc`. -/
def bladeA : Blade := ⟨Kc, 0, 8, 128⟩

/-- Sample second blade instance `Blade(8, 128)` of class `Kc`. -/
def bladeB : Blade := ⟨Kc, 1, 8, 128⟩

/-- Sample blade instance `Blade(8, 128)` of the second pool class `Kd`. -/
def bladeD : Blade := ⟨Kd, 2, 8, 128⟩

/-- Sample task `Task(0, 1, 1)`. -/
def taskSample : Task := ⟨0, 1, 1⟩

/-- Sample task with an id past the pool size of `Kc`. -/
def taskBig : Task := ⟨5, 1, 1⟩

/-- Sample assignment: every running variable true, every CPU-cost
variable 1, every memory-cost variable 1. -/
def assignBoth : Assignment := ⟨fun _ _ => true, fun _ _ => 1, fun _ _ => 1⟩

/-- Constraint object returned by `taskSample.get_constraints [bladeA, bladeD]`. -/
def consMixed : Constraint :=
  .all
    [ .eq (.cpuVar 0 0) (.lit 1),
      .eq (.memVar 0 0) (.lit 1),
      .any [.all [.runEq 0 0 true], .all [.runEq 2 0 true]] ]

section Lemmas

lemma evalExpr_sum (a : Assignment) (es : List Expr) :
    evalExpr a (.sum es) = (es.map (evalExpr a)).sum := by
  induction es with
  | nil => simp [evalExpr]
  | cons e es ih => simp [evalExpr, ih]

lemma evalC_all (a : Assignment) (cs : List Constraint) :
    evalC a (.all cs) = cs.all (evalC a) := by
  induction cs with
  | nil => simp [evalC]
  | cons c cs ih => simp [evalC, ih]

lemma evalC_any (a : Assignment) (cs : List Constraint) :
    evalC a (.any cs) = cs.any (evalC a) := by
  induction cs with
  | nil => simp [evalC]
  | cons c cs ih => simp [evalC, ih]

lemma BladeClass.cpu_getD (K : BladeClass) (i : ℕ) (h : i < K.slots) :
    K.cpu.getD i (.lit 0) = .cpuVar K.cls i := by
  rw [List.getD_eq_getElem?_getD]
  simp [BladeClass.cpu, h]

lemma BladeClass.mem_getD (K : BladeClass) (i : ℕ) (h : i < K.slots) :
    K.mem.getD i (.lit 0) = .memVar K.cls i := by
  rw [List.getD_eq_getElem?_getD]
  simp [BladeClass.mem, h]

lemma sum_map_range_eq (f : ℕ → ℚ) (n : ℕ) :
    ((List.range n).map f).sum = ∑ i ∈ Finset.range n, f i := by
  induction n with
  | zero => simp
  | succ k ih => rw [List.range_succ, Finset.sum_range_succ]; simp [ih]

lemma assign_conds_ok (t : Task) (blades : List Blade)
    (h : ∀ b ∈ blades, t.id < b.klass.slots) :
    t.assign_conds blades =
      .ok (blades.map (fun b => .all [.runEq b.bid t.id true])) := by
  induction blades with
  | nil => rfl
  | cons b bs ih =>
    have hb : t.id < b.klass.slots := h b (List.mem_cons_self b bs)
    have hrest := ih (fun x hx => h x (List.mem_cons_of_mem b hx))
    simp [Task.assign_conds, Task.assign_blade, hb, hrest, Bind.bind, Except.bind,
      pure, Except.pure]

lemma assign_blades_ok (t : Task) (blades : List Blade)
    (h : ∀ b ∈ blades, t.id < b.klass.slots) :
    t.assign_blades blades =
      .ok (.any (blades.map (fun b => .all [.runEq b.bid t.id true]))) := by
  rw [Task.assign_blades, assign_conds_ok t blades h]
  rfl

lemma assign_conds_shape (t : Task) (blades : List Blade)
    (cs : List Constraint) (h : t.assign_conds blades = .ok cs) :
    cs = blades.map (fun b => .all [.runEq b.bid t.id true]) := by
  induction blades generalizing cs with
  | nil =>
    simp only [Task.assign_conds, Except.ok.injEq] at h
    exact h.symm
  | cons b bs ih =>
    by_cases hb : t.id < b.klass.slots
    · simp only [Task.assign_conds, Task.assign_blade, if_pos hb, Bind.bind,
        Except.bind] at h
      cases hrest : t.assign_conds bs with
      | error e => rw [hrest] at h; simp at h
      | ok cs₂ =>
        rw [hrest] at h
        simp only [pure, Except.pure, Except.ok.injEq] at h
        subst h
        simp [ih cs₂ hrest]
    · simp [Task.assign_conds, Task.assign_blade, hb, Bind.bind, Except.bind] at h

lemma evalC_any_mem (a : Assignment) (cs : List Constraint) :
    evalC a (.any cs) = true ↔ ∃ c ∈ cs, evalC a c = true := by
  rw [evalC_any, List.any_eq_true]

lemma evalC_any_assign (a : Assignment) (t : Task) (blades : List Blade) :
    evalC a (.any (blades.map (fun b => .all [.runEq b.bid t.id true]))) = true ↔
      ∃ b ∈ blades, a.runningVal b.bid t.id = true := by
  rw [evalC_any_mem]
  constructor
  · rintro ⟨c, hc, hev⟩
    rw [List.mem_map] at hc
    obtain ⟨b, hb, rfl⟩ := hc
    exact ⟨b, hb, by simpa [evalC] using hev⟩
  · rintro ⟨b, hb, hrun⟩
    exact ⟨_, List.mem_map_of_mem _ hb, by simp [evalC, hrun]⟩

lemma blade_eval (b : Blade) (a : Assignment) :
    evalC a b.get_constraints = true ↔
      (∑ i ∈ Finset.range b.klass.slots,
          (if a.runningVal b.bid i then a.cpuVal b.klass.cls i else 0)) ≤ b.num_cpu ∧
      (∑ i ∈ Finset.range b.klass.slots,
          (if a.runningVal b.bid i then (a.memVal b.klass.cls i : ℚ) else 0)) ≤
        (b.total_mem : ℚ) := by
  have hcpu : ∀ i ∈ List.range b.klass.slots,
      evalExpr a (b.cond_cpu i) =
        (if a.runningVal b.bid i then a.cpuVal b.klass.cls i else 0) := by
    intro i hi
    rw [List.mem_range] at hi
    rw [Blade.cond_cpu, Blade.cond, BladeClass.cpu_getD _ _ hi]
    simp [evalExpr]
  have hmem : ∀ i ∈ List.range b.klass.slots,
      evalExpr a (b.cond_mem i) =
        (if a.runningVal b.bid i then (a.memVal b.klass.cls i : ℚ) else 0) := by
    intro i hi
    rw [List.mem_range] at hi
    rw [Blade.cond_mem, Blade.cond, BladeClass.mem_getD _ _ hi]
    simp [evalExpr]
  rw [Blade.get_constraints, evalC_all]
  simp only [List.all_cons, List.all_nil, Bool.and_true, Bool.and_eq_true]
  rw [evalC, evalC, evalExpr_sum, evalExpr_sum, List.map_map, List.map_map]
  simp only [Function.comp_def]
  have hc := List.map_congr_left hcpu
  have hm := List.map_congr_left hmem
  simp only [hc, hm, sum_map_range_eq]
  simp [evalExpr]

lemma global_eval (K : BladeClass) (a : Assignment) :
    evalC a K.get_global_constraints = true ↔
      ∀ i < K.slots, 0 ≤ a.cpuVal K.cls i ∧ 0 ≤ a.memVal K.cls i := by
  rw [BladeClass.get_global_constraints, evalC_all, List.all_append,
    Bool.and_eq_true, List.all_eq_true, List.all_eq_true]
  constructor
  · rintro ⟨h1, h2⟩ i hi
    have hc := h1 _ (List.mem_map_of_mem _ (List.mem_range.mpr hi))
    have hm := h2 _ (List.mem_map_of_mem _ (List.mem_range.mpr hi))
    rw [BladeClass.cpu_getD _ _ hi] at hc
    rw [BladeClass.mem_getD _ _ hi] at hm
    refine ⟨by simpa [evalC, evalExpr] using hc, ?_⟩
    have : (0 : ℚ) ≤ (a.memVal K.cls i : ℚ) := by simpa [evalC, evalExpr] using hm
    exact_mod_cast this
  · intro h
    constructor
    · intro x hx
      rw [List.mem_map] at hx
      obtain ⟨i, hi, rfl⟩ := hx
      rw [List.mem_range] at hi
      rw [BladeClass.cpu_getD _ _ hi]
      simpa [evalC, evalExpr] using (h i hi).1
    · intro x hx
      rw [List.mem_map] at hx
      obtain ⟨i, hi, rfl⟩ := hx
      rw [List.mem_range] at hi
      rw [BladeClass.mem_getD _ _ hi]
      have : (0 : ℚ) ≤ (a.memVal K.cls i : ℚ) := by exact_mod_cast (h i hi).2
      simpa [evalC, evalExpr] using this

lemma global_ne_blade (K : BladeClass) (b : Blade) :
    K.get_global_constraints ≠ b.get_constraints := by
  intro h
  rw [BladeClass.get_global_constraints, Blade.get_constraints] at h
  injection h with h
  cases hn : K.slots with
  | zero => rw [hn] at h; simp at h
  | succ m =>
    rw [hn, List.range_succ_eq_map] at h
    simp at h

lemma any_eval_congr (a₁ a₂ : Assignment) (cs : List Constraint)
    (h : ∀ c ∈ cs, evalC a₁ c = evalC a₂ c) :
    cs.any (evalC a₁) = cs.any (evalC a₂) := by
  induction cs with
  | nil => rfl
  | cons c cs ih =>
    simp only [List.any_cons]
    rw [h c (List.mem_cons_self c cs),
      ih (fun x hx => h x (List.mem_cons_of_mem c hx))]

end Lemmas

/-- C1: satisfying a blade's `get_constraints` is exactly: the sum of the
conditional CPU contributions (cost if running, else 0) of all slots is
at most `num_cpu`, and the sum of the conditional memory contributions is
at most `total_mem`. -/
theorem blade_get_constraints_correct (b : Blade) (a : Assignment) :
    evalC a b.get_constraints = true ↔
      (∑ i ∈ Finset.range b.klass.slots,
          (if a.runningVal b.bid i then a.cpuVal b.klass.cls i else 0)) ≤ b.num_cpu ∧
      (∑ i ∈ Finset.range b.klass.slots,
          (if a.runningVal b.bid i then (a.memVal b.klass.cls i : ℚ) else 0)) ≤
        (b.total_mem : ℚ) :=
  blade_eval b a

/-- C2: for a task whose id is in range for every candidate blade,
`Task.get_constraints` returns the conjunction of the two cost-equality
constraints on the shared slot variables (of the first blade's class) and
the disjunction, over every candidate blade, of that blade's running
variable being true; satisfying it is exactly: the slot CPU cost equals
the declared CPU cost, the slot memory cost equals the declared memory
cost, and the task runs on at least one candidate blade. -/
theorem task_get_constraints_correct (t : Task) (b₀ : Blade) (bs : List Blade)
    (a : Assignment) (h : ∀ b ∈ b₀ :: bs, t.id < b.klass.slots) :
    ∃ c, t.get_constraints (b₀ :: bs) = .ok c ∧
      c = .all
        [ .eq (.cpuVar b₀.klass.cls t.id) (.lit t.cpu),
          .eq (.memVar b₀.klass.cls t.id) (.lit (t.mem : ℚ)),
          .any ((b₀ :: bs).map (fun b => .all [.runEq b.bid t.id true])) ] ∧
      (evalC a c = true ↔
        a.cpuVal b₀.klass.cls t.id = t.cpu ∧
        a.memVal b₀.klass.cls t.id = t.mem ∧
        ∃ b ∈ b₀ :: bs, a.runningVal b.bid t.id = true) := by
  have hb0 : t.id < b₀.klass.slots := h b₀ (List.mem_cons_self b₀ bs)
  refine ⟨_, ?_, rfl, ?_⟩
  · rw [Task.get_constraints]
    rw [if_pos hb0, assign_blades_ok t (b₀ :: bs) h,
        BladeClass.cpu_getD _ _ hb0, BladeClass.mem_getD _ _ hb0]
    rfl
  · rw [evalC_all]
    simp only [List.all_cons, List.all_nil, Bool.and_true, Bool.and_eq_true]
    rw [evalC_any_assign]
    simp only [evalC, evalExpr, decide_eq_true_iff]
    constructor
    · rintro ⟨h1, h2, hrun⟩
      exact ⟨h1, by exact_mod_cast h2, hrun⟩
    · rintro ⟨h1, h2, hrun⟩
      exact ⟨h1, by exact_mod_cast h2, hrun⟩

/-- C2 witness: instantiation at `taskSample` and the single candidate
`bladeA` under `assignBoth`. -/
theorem task_get_constraints_correct_witness :
    (∀ b ∈ [bladeA], taskSample.id < b.klass.slots) ∧
    (∃ c, taskSample.get_constraints [bladeA] = .ok c ∧
      c = .all
        [ .eq (.cpuVar bladeA.klass.cls taskSample.id) (.lit taskSample.cpu),
          .eq (.memVar bladeA.klass.cls taskSample.id) (.lit (taskSample.mem : ℚ)),
          .any ([bladeA].map (fun b => .all [.runEq b.bid taskSample.id true])) ] ∧
      (evalC assignBoth c = true ↔
        assignBoth.cpuVal bladeA.klass.cls taskSample.id = taskSample.cpu ∧
        assignBoth.memVal bladeA.klass.cls taskSample.id = taskSample.mem ∧
        ∃ b ∈ [bladeA], assignBoth.runningVal b.bid taskSample.id = true)) := by
  have h : ∀ b ∈ [bladeA], taskSample.id < b.klass.slots := by
    intro b hb
    simp only [List.mem_singleton] at hb
    subst hb
    simp [taskSample, bladeA, Kc, BladeClass.slots]
  exact ⟨h, task_get_constraints_correct taskSample bladeA [] assignBoth h⟩

/-- C3 counterexample: `define_blade(0)` does not fail; it returns the
class without any configuration error. -/
theorem define_blade_zero_no_error :
    define_blade 0 0 = .ok ⟨0, 0⟩ := rfl

/-- C3 amended: for every `num_tasks <= 0`, `define_blade` succeeds
without raising any error, and the resulting class has empty slot-variable
arrays (Python's `range` of a non-positive count is empty); no
configuration error is detected at construction time. -/
theorem define_blade_nonpos_succeeds (n : ℤ) (hn : n ≤ 0) (c : ℕ) :
    ∃ K, define_blade n c = .ok K ∧ K.cpu = [] ∧ K.mem = [] ∧ K.slots = 0 := by
  refine ⟨⟨c, n⟩, rfl, ?_, ?_, ?_⟩ <;>
    simp [BladeClass.cpu, BladeClass.mem, BladeClass.slots, Int.toNat_of_nonpos hn]

/-- C3 amended witness: instantiation at `num_tasks = -3`. -/
theorem define_blade_nonpos_succeeds_witness :
    (-3 : ℤ) ≤ 0 ∧
    ∃ K, define_blade (-3) 0 = .ok K ∧ K.cpu = [] ∧ K.mem = [] ∧ K.slots = 0 :=
  ⟨by norm_num, define_blade_nonpos_succeeds (-3) (by norm_num) 0⟩

/-- C4 counterexample: on an empty candidate list the builder raises
`IndexError` (from `blades[0]`), not the spec's `ConfigurationError`. -/
theorem task_empty_blades_not_config_error :
    taskSample.get_constraints [] = .error .indexError ∧
    taskSample.get_constraints [] ≠ .error .configurationError := by
  constructor
  · rfl
  · intro h
    simp [Task.get_constraints] at h

/-- C4 amended: for every task, building its constraints over an empty
candidate set raises an error (an `IndexError` from indexing `blades[0]`)
before any solve; the builder never silently succeeds. -/
theorem task_empty_blades_raises (t : Task) :
    t.get_constraints [] = .error .indexError := rfl

/-- C5: the pool-wide non-negativity constraint is a function of the pool
class alone, appears exactly once in the resource-constraint list built in
`main` (as its head, and it never coincides with any per-instance blade
constraint), and satisfying it is exactly the non-negativity of every
CPU-cost and every memory-cost slot variable of that pool. -/
theorem global_constraints_once_and_nonneg (K : BladeClass) (blades : List Blade)
    (a : Assignment) :
    (evalC a K.get_global_constraints = true ↔
      ∀ i < K.slots, 0 ≤ a.cpuVal K.cls i ∧ 0 ≤ a.memVal K.cls i) ∧
    resource_constraints K blades =
      K.get_global_constraints :: blades.map Blade.get_constraints ∧
    K.get_global_constraints ∉ blades.map Blade.get_constraints := by
  refine ⟨global_eval K a, rfl, ?_⟩
  intro hmem
  rw [List.mem_map] at hmem
  obtain ⟨b, -, hb⟩ := hmem
  exact global_ne_blade K b hb.symm

/-- C6 counterexample: a two-blade, one-task system built exactly as in
`main` admits an assignment that satisfies the global constraint, both
blade capacity constraints and the task constraint while the task's
running variable is true on both (distinct) blades: the constructed
constraints do not enforce mutual exclusion, and the program contains no
assertion of it. -/
theorem double_placement_counterexample :
    taskSample.get_constraints [bladeA, bladeB] =
      .ok (.all
        [ .eq (.cpuVar 0 0) (.lit 1),
          .eq (.memVar 0 0) (.lit ((1 : ℤ) : ℚ)),
          .any [.all [.runEq 0 0 true], .all [.runEq 1 0 true]] ]) ∧
    (resource_constraints Kc [bladeA, bladeB]).all (evalC assignBoth) = true ∧
    evalC assignBoth (.all
        [ .eq (.cpuVar 0 0) (.lit 1),
          .eq (.memVar 0 0) (.lit ((1 : ℤ) : ℚ)),
          .any [.all [.runEq 0 0 true], .all [.runEq 1 0 true]] ]) = true ∧
    assignBoth.runningVal bladeA.bid taskSample.id = true ∧
    assignBoth.runningVal bladeB.bid taskSample.id = true ∧
    bladeA.bid ≠ bladeB.bid := by
  refine ⟨rfl, ?_, ?_, rfl, rfl, by decide⟩
  · have hg : evalC assignBoth Kc.get_global_constraints = true := by
      rw [global_eval]
      intro i hi
      constructor <;> norm_num [assignBoth]
    have hA : evalC assignBoth bladeA.get_constraints = true := by
      rw [blade_eval]
      constructor <;>
        · norm_num [assignBoth, bladeA, Kc, BladeClass.slots, Finset.sum_range_one]
    have hB : evalC assignBoth bladeB.get_constraints = true := by
      rw [blade_eval]
      constructor <;>
        · norm_num [assignBoth, bladeB, Kc, BladeClass.slots, Finset.sum_range_one]
    simp [resource_constraints, hg, hA, hB]
  · rw [evalC_all]
    simp only [List.all_cons, List.all_nil, Bool.and_true, Bool.and_eq_true]
    refine ⟨?_, ?_, ?_⟩ <;> simp [evalC, evalExpr, assignBoth]

/-- C6 amended: the constructed constraint system does not enforce mutual
exclusion of placement: there is an assignment satisfying every resource
constraint and the task constraint under which the same task id is
running on two distinct blades (and the source contains no assertion
relating placements to the reported worked count). -/
theorem double_placement_not_excluded :
    ∃ (a : Assignment) (tc : Constraint),
      taskSample.get_constraints [bladeA, bladeB] = .ok tc ∧
      (resource_constraints Kc [bladeA, bladeB]).all (evalC a) = true ∧
      evalC a tc = true ∧
      a.runningVal bladeA.bid taskSample.id = true ∧
      a.runningVal bladeB.bid taskSample.id = true ∧
      bladeA.bid ≠ bladeB.bid := by
  refine ⟨assignBoth,
    .all
      [ .eq (.cpuVar 0 0) (.lit 1),
        .eq (.memVar 0 0) (.lit ((1 : ℤ) : ℚ)),
        .any [.all [.runEq 0 0 true], .all [.runEq 1 0 true]] ],
    rfl, ?_, ?_, rfl, rfl, by decide⟩
  · have hg : evalC assignBoth Kc.get_global_constraints = true := by
      rw [global_eval]
      intro i hi
      constructor <;> norm_num [assignBoth]
    have hA : evalC assignBoth bladeA.get_constraints = true := by
      rw [blade_eval]
      constructor <;>
        · norm_num [assignBoth, bladeA, Kc, BladeClass.slots, Finset.sum_range_one]
    have hB : evalC assignBoth bladeB.get_constraints = true := by
      rw [blade_eval]
      constructor <;>
        · norm_num [assignBoth, bladeB, Kc, BladeClass.slots, Finset.sum_range_one]
    simp [resource_constraints, hg, hA, hB]
  · rw [evalC_all]
    simp only [List.all_cons, List.all_nil, Bool.and_true, Bool.and_eq_true]
    refine ⟨?_, ?_, ?_⟩ <;> simp [evalC, evalExpr, assignBoth]

/-- C7: for each blade, the result interpreter of `main` produces the
list of exactly those task ids whose running variable is true on that
blade, in strictly ascending order, drawn from `0..num_tasks-1`. -/
theorem worked_per_blade_correct (a : Assignment) (nt : ℕ) (blades : List Blade) :
    worked_per_blade a nt blades = blades.map (blade_worked a nt) ∧
    ∀ b : Blade, (blade_worked a nt b).Sorted (· < ·) ∧
      ∀ i : ℕ, i ∈ blade_worked a nt b ↔ i < nt ∧ a.runningVal b.bid i = true := by
  refine ⟨rfl, fun b => ⟨?_, fun i => ?_⟩⟩
  · exact (List.sorted_lt_range nt).filter _
  · simp [blade_worked, List.mem_filter, List.mem_range]

/-- C8: the constraint builders are pure: threading the (immutable)
instance state through each builder returns that state unchanged, and the
result is the composable constraint object itself, with no search
performed during construction. -/
theorem builders_pure (b : Blade) (K : BladeClass) (t : Task) (blades : List Blade) :
    (b.get_constraintsS).1 = b ∧
    (K.get_global_constraintsS).1 = K ∧
    (t.get_constraintsS blades).1 = (t, blades) ∧
    (b.get_constraintsS).2 = b.get_constraints ∧
    (K.get_global_constraintsS).2 = K.get_global_constraints ∧
    (t.get_constraintsS blades).2 = t.get_constraints blades :=
  ⟨rfl, rfl, rfl, rfl, rfl, rfl⟩

/-- C9: a task's constraint binds the cost variables of `type(blades[0])`
only: updating the CPU-cost and memory-cost variables of any class other
than the first candidate blade's class (at any slot, to any values) does
not change the truth value of the constraint returned by
`Task.get_constraints`. -/
theorem cost_vars_other_class_unconstrained (t : Task) (b₀ : Blade)
    (bs : List Blade) (c j : ℕ) (v : ℚ) (w : ℤ) (cons : Constraint)
    (a : Assignment) (hok : t.get_constraints (b₀ :: bs) = .ok cons)
    (hc : c ≠ b₀.klass.cls) :
    evalC ((a.setCpu c j v).setMem c j w) cons = evalC a cons := by
  have hc' : b₀.klass.cls ≠ c := Ne.symm hc
  by_cases hid : t.id < b₀.klass.slots
  · simp only [Task.get_constraints, if_pos hid] at hok
    cases hpl : t.assign_blades (b₀ :: bs) with
    | error e => rw [hpl] at hok; simp [Bind.bind, Except.bind] at hok
    | ok placed =>
      rw [hpl] at hok
      simp only [Bind.bind, Except.bind, pure, Except.pure, Except.ok.injEq] at hok
      subst hok
      obtain ⟨cs, hcs, rfl⟩ :
          ∃ cs, t.assign_conds (b₀ :: bs) = .ok cs ∧ placed = .any cs := by
        rw [Task.assign_blades] at hpl
        cases hconds : t.assign_conds (b₀ :: bs) with
        | error e => rw [hconds] at hpl; simp [Bind.bind, Except.bind] at hpl
        | ok cs =>
          rw [hconds] at hpl
          simp only [Bind.bind, Except.bind, pure, Except.pure,
            Except.ok.injEq] at hpl
          exact ⟨cs, rfl, hpl.symm⟩
      have hshape := assign_conds_shape t (b₀ :: bs) cs hcs
      subst hshape
      rw [BladeClass.cpu_getD _ _ hid, BladeClass.mem_getD _ _ hid]
      rw [evalC_all, evalC_all]
      simp only [List.all_cons, List.all_nil, Bool.and_true]
      have h1 : evalC ((a.setCpu c j v).setMem c j w)
            (.eq (.cpuVar b₀.klass.cls t.id) (.lit t.cpu)) =
          evalC a (.eq (.cpuVar b₀.klass.cls t.id) (.lit t.cpu)) := by
        simp [evalC, evalExpr, Assignment.setCpu, Assignment.setMem, hc']
      have h2 : evalC ((a.setCpu c j v).setMem c j w)
            (.eq (.memVar b₀.klass.cls t.id) (.lit (t.mem : ℚ))) =
          evalC a (.eq (.memVar b₀.klass.cls t.id) (.lit (t.mem : ℚ))) := by
        simp [evalC, evalExpr, Assignment.setCpu, Assignment.setMem, hc']
      have h3 : evalC ((a.setCpu c j v).setMem c j w)
            (.any ((b₀ :: bs).map fun b => Constraint.all [.runEq b.bid t.id true])) =
          evalC a
            (.any ((b₀ :: bs).map fun b => Constraint.all [.runEq b.bid t.id true])) := by
        rw [evalC_any, evalC_any]
        apply any_eval_congr
        intro x hx
        rw [List.mem_map] at hx
        obtain ⟨b, -, rfl⟩ := hx
        simp [evalC, Assignment.setCpu, Assignment.setMem]
      rw [h1, h2, h3]
  · simp only [Task.get_constraints, if_neg hid] at hok
    exact Except.noConfusion hok

/-- C9 witness: a mixed candidate list whose first blade is from pool
class `Kc` (tag 0) and whose second blade is from pool class `Kd` (tag 1);
rewriting class 1's slot-0 cost variables to 5 and 7 leaves the truth
value of the task constraint unchanged. -/
theorem cost_vars_other_class_unconstrained_witness :
    taskSample.get_constraints [bladeA, bladeD] = .ok consMixed ∧
    (1 : ℕ) ≠ bladeA.klass.cls ∧
    evalC ((assignBoth.setCpu 1 0 5).setMem 1 0 7) consMixed =
      evalC assignBoth consMixed := by
  have hok : taskSample.get_constraints [bladeA, bladeD] = .ok consMixed := rfl
  exact ⟨hok, by decide,
    cost_vars_other_class_unconstrained taskSample bladeA [bladeD] 1 0 5 7
      consMixed assignBoth hok (by decide)⟩

/-- C10: for a non-empty candidate list drawn from one pool, building the
task constraint succeeds whenever the task id is below the pool's
`num_tasks` (every list index is in bounds), and raises `IndexError`
whenever the id is at or above it. -/
theorem task_get_constraints_index_bounds (t : Task) (b₀ : Blade)
    (bs : List Blade) (hpool : ∀ b ∈ bs, b.klass = b₀.klass) :
    ((t.id : ℤ) < b₀.klass.numTasks →
      (t.get_constraints (b₀ :: bs)).isOk = true) ∧
    (b₀.klass.numTasks ≤ (t.id : ℤ) →
      t.get_constraints (b₀ :: bs) = .error .indexError) := by
  constructor
  · intro hid
    have hid' : t.id < b₀.klass.slots := by
      rw [BladeClass.slots]
      exact Int.lt_toNat.mpr hid
    have hall : ∀ b ∈ b₀ :: bs, t.id < b.klass.slots := by
      intro b hb
      rcases List.mem_cons.mp hb with rfl | hb
      · exact hid'
      · rw [hpool b hb]; exact hid'
    simp only [Task.get_constraints, if_pos hid',
      assign_blades_ok t (b₀ :: bs) hall]
    rfl
  · intro hid
    have hid' : ¬ t.id < b₀.klass.slots := by
      rw [BladeClass.slots, Int.lt_toNat]
      exact not_lt.mpr hid
    simp only [Task.get_constraints, if_neg hid']

/-- C10 witness: with the pool class `Kc` of size 1, a task with id 0 and
one candidate blade builds successfully, while a task with id 5 raises
`IndexError`. -/
theorem task_get_constraints_index_bounds_witness :
    ((taskSample.id : ℤ) < bladeA.klass.numTasks ∧
      (taskSample.get_constraints [bladeA]).isOk = true) ∧
    (bladeA.klass.numTasks ≤ (taskBig.id : ℤ) ∧
      taskBig.get_constraints [bladeA] = .error .indexError) := by
  have hpool : ∀ b ∈ ([] : List Blade), b.klass = bladeA.klass := by
    intro b hb
    exact absurd hb (List.not_mem_nil b)
  exact ⟨⟨by decide,
      (task_get_constraints_index_bounds taskSample bladeA [] hpool).1 (by decide)⟩,
    ⟨by decide,
      (task_get_constraints_index_bounds taskBig bladeA [] hpool).2 (by decide)⟩⟩

end Smartalloc
